import Mathlib

set_option linter.unusedVariables false
set_option linter.unnecessarySeqFocus false

/-!
A shallow embedding, in Lean 4, of the `django-override-storage` package:
the in-memory blob store (`override_storage/storage.py`, class
`LocMemStorage`), the override controller and its snapshot stack
(`override_storage/utils.py`, classes `StorageTestMixin` and
`StorageTestContextDecoratorBase` / `override_storage`), and the stats
bookkeeping (`override_storage/utils.py`, class `Stats`).

Python strings are embedded as `String` where only equality matters (cache
keys) and as `List Char` where Python's substring operator `in` matters
(stats blob names, file modes).  Byte sequences are `List Nat`, timestamps
are abstract `Nat` ticks passed in for `now()`, and Python object identity
(storage instances, field instances) is a `Nat` reference.  Exceptions
become `Except`/`Option` results.
-/

namespace OverrideStorage

/-- Python exception classes that the embedded code can surface.
`keyError` and `fileNotFoundError` are Python's lookup-failure ("not
found") exception classes; `attributeError` is raised by a failed
attribute access (for example `.content` on `None`) and carries no
not-found meaning; `notImplementedError` marks an unsupported
capability. -/
inductive PyExc where
  | attributeError
  | keyError
  | fileNotFoundError
  | notImplementedError
  deriving DecidableEq, Repr

/-- Which Python exception classes count as a distinguishable "not found"
condition, following the spec's error taxonomy (`NotFound` — read / size /
timestamp query on an absent blob name). -/
def PyExc.isNotFound : PyExc → Bool
  | .keyError => true
  | .fileNotFoundError => true
  | _ => false

/-! ## The in-memory blob store: `LocMemStorage` (storage.py) -/

/-- `FakeContent = namedtuple('FakeContent', ['content', 'time'])`. -/
structure FakeContent where
  content : List Nat
  time : Nat
  deriving DecidableEq, Repr

/-- The state of one `LocMemStorage` instance: the `cache` dict (an
insertion-ordered association list with unique keys, as a Python dict) and
the `_base_url` constructor argument.  The `RLock` only serialises access
and has no sequential semantics, so it is not part of the state. -/
structure LocMemStore where
  cache : List (String × FakeContent)
  base_url : Option String
  deriving DecidableEq, Repr

/-- Python `dict.get(name)`: the first (unique) entry for the key, if any. -/
def cacheGet (c : List (String × FakeContent)) (n : String) : Option FakeContent :=
  (c.find? (fun e => e.1 == n)).map (fun e => e.2)

/-- `LocMemStorage.__init__(self, base_url=None, cache_params=None)`:
starts an empty cache; `cache_params` is accepted and ignored (no culling
machinery exists), and `base_url` is stored. -/
def locmemInit (base_url : Option String) (cache_params : Option Nat) : LocMemStore :=
  { cache := [], base_url := base_url }

/-- The content argument handed to `_save`: Django file objects `read()`
to either bytes or text. -/
inductive FileContent where
  | bytes (bs : List Nat)
  | text (s : String)
  deriving DecidableEq, Repr

/-- Python's `str.encode()` with its UTF-8 default. -/
def pyEncode (s : String) : List Nat :=
  s.toUTF8.toList.map (fun b => b.toNat)

/-- `content = content.read()`, then `_save`'s normalisation
`if not isinstance(content, (bytes, bytearray)): content = content.encode()`. -/
def readBytes : FileContent → List Nat
  | .bytes bs => bs
  | .text s => pyEncode s

/-- The loop `while name in self.cache: name = self.get_available_name(name)`
in `_save`.  `get_available_name` comes from Django's `Storage` base class
and is kept abstract as `gan`; the loop has no bound in the source, so the
embedding carries fuel and returns `none` where the Python loop would not
terminate. -/
def findFreeName (gan : String → String) (c : List (String × FakeContent)) :
    Nat → String → Option String
  | 0, n => if (cacheGet c n).isNone then some n else none
  | fuel + 1, n =>
    if (cacheGet c n).isNone then some n
    else findFreeName gan c fuel (gan n)

/-- `LocMemStorage._save(self, name, content)`: read and byte-normalise the
content, rename `name` via `get_available_name` until it is free, store
`FakeContent(content, now())` under the final name (a new dict key, hence
appended), and return the name actually used.  `t` stands for `now()`. -/
def locmem_save (gan : String → String) (fuel : Nat) (st : LocMemStore)
    (name : String) (content : FileContent) (t : Nat) :
    Option (String × LocMemStore) :=
  let bs := readBytes content
  (findFreeName gan st.cache fuel name).map
    (fun n => (n, { st with cache := st.cache ++ [(n, ⟨bs, t⟩)] }))

/-- `LocMemStorage._open(self, name, mode='rb')`: raises
`NotImplementedError` when `'w' in mode`; otherwise returns
`ContentFile(self.cache.get(name).content)` — on an absent name
`dict.get` yields `None` and the `.content` access raises
`AttributeError`. -/
def locmem_open (st : LocMemStore) (name : String) (mode : List Char) :
    Except PyExc (List Nat) :=
  if mode.contains 'w' then .error .notImplementedError
  else
    match cacheGet st.cache name with
    | none => .error .attributeError
    | some fc => .ok fc.content

/-- `LocMemStorage.delete` / `_delete`: `del self.cache[name]`, with
`KeyError` caught, so deleting an absent name is a no-op. -/
def locmem_delete (st : LocMemStore) (name : String) : LocMemStore :=
  { st with cache := st.cache.filter (fun e => !(e.1 == name)) }

/-- `LocMemStorage.exists(self, name)`: `name in self.cache`. -/
def locmem_exists (st : LocMemStore) (name : String) : Bool :=
  (cacheGet st.cache name).isSome

/-- `LocMemStorage.size(self, name)`: `len(self.cache.get(name).content)`;
an absent name again makes `.content` on `None` raise `AttributeError`. -/
def locmem_size (st : LocMemStore) (name : String) : Except PyExc Nat :=
  match cacheGet st.cache name with
  | none => .error .attributeError
  | some fc => .ok fc.content.length

/-- `get_accessed_time` / `get_created_time` / `get_modified_time`: all
return `self.cache.get(name).time`; absent names raise `AttributeError`
through the `.time` access on `None`. -/
def locmem_get_time (st : LocMemStore) (name : String) : Except PyExc Nat :=
  match cacheGet st.cache name with
  | none => .error .attributeError
  | some fc => .ok fc.time

/-! ### Blob-store lemmas -/

theorem cacheGet_append (c : List (String × FakeContent)) (n : String)
    (e : String × FakeContent) :
    cacheGet (c ++ [e]) n =
      ((cacheGet c n).orElse (fun _ => if e.1 == n then some e.2 else none)) := by
  induction c with
  | nil =>
    simp only [cacheGet, List.nil_append, List.find?]
    cases h : (e.1 == n) <;> simp [h, Option.orElse]
  | cons hd tl ih =>
    simp only [cacheGet, List.cons_append, List.find?] at *
    cases h : (hd.1 == n) <;> simp [h, Option.orElse] at ih ⊢ <;> exact ih

/-- The name produced by the `while name in self.cache` loop is free. -/
theorem findFreeName_free (gan : String → String) (c : List (String × FakeContent)) :
    ∀ fuel n m, findFreeName gan c fuel n = some m → cacheGet c m = none := by
  intro fuel
  induction fuel with
  | zero =>
    intro n m h
    simp only [findFreeName] at h
    split at h
    · cases h; simpa [Option.isNone_iff_eq_none] using ‹(cacheGet c n).isNone = true›
    · cases h
  | succ k ih =>
    intro n m h
    simp only [findFreeName] at h
    split at h
    · cases h; simpa [Option.isNone_iff_eq_none] using ‹(cacheGet c n).isNone = true›
    · exact ih _ _ h

/-- The renaming loop only ever applies `get_available_name` repeatedly to
the requested name. -/
theorem findFreeName_iterate (gan : String → String) (c : List (String × FakeContent)) :
    ∀ fuel n m, findFreeName gan c fuel n = some m → ∃ k, m = gan^[k] n := by
  intro fuel
  induction fuel with
  | zero =>
    intro n m h
    simp only [findFreeName] at h
    split at h
    · cases h; exact ⟨0, rfl⟩
    · cases h
  | succ k ih =>
    intro n m h
    simp only [findFreeName] at h
    split at h
    · cases h; exact ⟨0, rfl⟩
    · obtain ⟨j, hj⟩ := ih (gan n) m h
      exact ⟨j + 1, by rw [hj, Function.iterate_succ_apply]⟩

/-- A free name is taken as-is by the renaming loop. -/
theorem findFreeName_of_free (gan : String → String) (c : List (String × FakeContent))
    (fuel : Nat) (n : String) (hfree : cacheGet c n = none) :
    findFreeName gan c fuel n = some n := by
  cases fuel <;> simp [findFreeName, hfree]

/-- `_save` never removes or replaces an existing cache entry: the stored
name is free, every prior entry survives unchanged, the new entry holds the
byte-normalised content with the save-time stamp, the cache only grows by
that one appended entry, the stored name is a `get_available_name` iterate
of the requested one, and a collision-free name is kept unchanged. -/
theorem locmem_save_spec (gan : String → String) (fuel : Nat) (st : LocMemStore)
    (name : String) (content : FileContent) (t : Nat) (stored : String)
    (st' : LocMemStore)
    (h : locmem_save gan fuel st name content t = some (stored, st')) :
    cacheGet st.cache stored = none ∧
    (∀ n fc, cacheGet st.cache n = some fc → cacheGet st'.cache n = some fc) ∧
    cacheGet st'.cache stored = some ⟨readBytes content, t⟩ ∧
    st'.base_url = st.base_url ∧
    st'.cache = st.cache ++ [(stored, ⟨readBytes content, t⟩)] ∧
    (∃ k, stored = gan^[k] name) ∧
    (cacheGet st.cache name = none → stored = name) := by
  simp only [locmem_save, Option.map_eq_some'] at h
  obtain ⟨m, hm, heq⟩ := h
  injection heq with h1 h2
  subst h1
  subst h2
  have hfree := findFreeName_free gan st.cache fuel name m hm
  refine ⟨hfree, ?_, ?_, rfl, rfl, findFreeName_iterate gan st.cache fuel name m hm, ?_⟩
  · intro n fc hn
    simp [cacheGet_append, hn, Option.orElse]
  · simp [cacheGet_append, hfree, Option.orElse]
  · intro hfn
    have := (findFreeName_of_free gan st.cache fuel name hfn).symm.trans hm
    exact (Option.some.injEq _ _ ▸ this).symm

/-- On a fresh store no rename happens: `_save` returns the requested name. -/
theorem locmem_save_fresh (gan : String → String) (fuel : Nat)
    (bu : Option String) (cp : Option Nat) (name : String)
    (content : FileContent) (t : Nat) :
    locmem_save gan fuel (locmemInit bu cp) name content t =
      some (name, { cache := [(name, ⟨readBytes content, t⟩)], base_url := bu }) := by
  cases fuel <;> simp [locmem_save, locmemInit, findFreeName, cacheGet]

/-! ## The override controller: `StorageTestMixin` and
`StorageTestContextDecoratorBase` (utils.py)

A Django field is a Python object; `FieldId` is its object identity.  Its
declaration data (`creation_counter`, owning model's `app_label` and
`model_name`) live in an environment `env : FieldId → FieldMeta`.  The
mutable `field.storage` attributes across all fields form a heap
`FieldId → StorageRef` with `StorageRef` the identity of a storage
instance.  `filefields` is the enumeration Django supplies
(`apps.get_models()` flattened); a field instance shared by a proxy or
derived model appears in it more than once, as the same `FieldId`. -/

abbrev FieldId := Nat
abbrev StorageRef := Nat

/-- The data `get_field_hash` reads off a field. -/
structure FieldMeta where
  creation_counter : Nat
  app_label : String
  model_name : String
  deriving DecidableEq, Repr

/-- `StorageTestMixin.get_field_hash(self, field)`: the Django 3.2 hash
`hash((field.creation_counter, app_label, model_name))`, embedded as the
tuple itself. -/
def get_field_hash (m : FieldMeta) : Nat × String × String :=
  (m.creation_counter, m.app_label, m.model_name)

/-- One entry of a snapshot frame: the dict maps
`get_field_hash(field) ↦ (field, field.storage)`. -/
abbrev FrameEntry := (Nat × String × String) × FieldId × StorageRef

/-- A snapshot frame (`previous_storages`): an insertion-ordered dict;
`setup_storage` only ever inserts fresh keys, so an appended list. -/
abbrev Frame := List FrameEntry

/-- The per-instance controller state: the `field.storage` heap it acts on
and its `storage_stack` (top of stack first; Python appends and pops at the
other end, which is the same discipline). -/
structure OverrideState where
  storages : FieldId → StorageRef
  storage_stack : List Frame

/-- The `for field in self.filefields` loop body of `setup_storage`: skip
the field if its hash is already a key of the frame being built, else
record `(field, field.storage)` under the hash and assign the new storage
(`set_storage`; the write-only `_original_storage` bookkeeping attribute is
omitted).  `g field` is `self.get_storage(field)`, the storage instance
installed for `field`. -/
def setup_fields (env : FieldId → FieldMeta) (g : FieldId → StorageRef) :
    List FieldId → Frame → (FieldId → StorageRef) → Frame × (FieldId → StorageRef)
  | [], frame, s => (frame, s)
  | f :: rest, frame, s =>
    if (frame.find? (fun e => decide (e.1 = get_field_hash (env f)))).isSome then
      setup_fields env g rest frame s
    else
      setup_fields env g rest (frame ++ [(get_field_hash (env f), f, s f)])
        (Function.update s f (g f))

/-- `StorageTestMixin.setup_storage`: push a fresh frame
(`push_storage_stack`) and run the capture-and-swap loop over
`self.filefields`. -/
def setup_storage (env : FieldId → FieldMeta) (g : FieldId → StorageRef)
    (filefields : List FieldId) (st : OverrideState) : OverrideState :=
  let r := setup_fields env g filefields [] st.storages
  { storages := r.2, storage_stack := r.1 :: st.storage_stack }

/-- The `for field, original_storage in previous_storages.values()` loop of
`teardown_storage`: reassign each captured field's storage. -/
def restore_frame : Frame → (FieldId → StorageRef) → (FieldId → StorageRef)
  | [], s => s
  | (_, f, orig) :: rest, s => restore_frame rest (Function.update s f orig)

/-- `StorageTestMixin.teardown_storage`: pop the top frame
(`pop_storage_stack`; the `IndexError` on an empty stack is caught and the
method returns, leaving everything unchanged) and restore every captured
field's original storage. -/
def teardown_storage (st : OverrideState) : OverrideState :=
  match st.storage_stack with
  | [] => st
  | frame :: rest => { storages := restore_frame frame st.storages, storage_stack := rest }

/-- `setup_storage` interrupted by an exception after the loop has handled
the first `k` fields (for example `self.get_storage(field)` raising): the
fresh frame is already pushed and holds what was captured so far. -/
def setup_storage_stopped_after (env : FieldId → FieldMeta) (g : FieldId → StorageRef)
    (filefields : List FieldId) (k : Nat) (st : OverrideState) : OverrideState :=
  setup_storage env g (filefields.take k) st

/-- `StorageTestContextDecoratorBase.enable` when `setup_storage` raises
after `k` fields: the `except` clause invokes `teardown_storage` and
re-raises, so the state the exception propagates out of is this one. -/
def enable_setup_raises (env : FieldId → FieldMeta) (g : FieldId → StorageRef)
    (filefields : List FieldId) (k : Nat) (st : OverrideState) : OverrideState :=
  teardown_storage (setup_storage_stopped_after env g filefields k st)

/-- A wrapped body: it may mutate the `field.storage` heap and may raise
(`some exn`).  `Exn` is the payload of the raised exception. -/
abbrev Exn := Nat

/-- One activation as a context manager or decorated callable:
`__enter__` runs `enable` (`setup_storage` succeeding), the body runs, and
`__exit__` runs `disable` (= `teardown_storage`) unconditionally before any
exception from the body propagates (`TestContextDecorator.__exit__` ignores
`exc_type`).  The body does not touch the controller's stack, which no
public path mutates during the block. -/
def run_with_override (env : FieldId → FieldMeta) (g : FieldId → StorageRef)
    (filefields : List FieldId)
    (body : (FieldId → StorageRef) → (FieldId → StorageRef) × Option Exn)
    (st : OverrideState) : OverrideState × Option Exn :=
  let st1 := setup_storage env g filefields st
  let r := body st1.storages
  (teardown_storage { storages := r.1, storage_stack := st1.storage_stack }, r.2)

/-! ### Controller lemmas -/

/-- Invariants carried by the `setup_storage` loop, relative to the heap
`s₀` the activation started from: every frame entry holds its field's
original storage and its field's hash as key, and every field without an
entry still has its original storage. -/
theorem setup_fields_inv (env : FieldId → FieldMeta) (g : FieldId → StorageRef)
    (s₀ : FieldId → StorageRef) :
    ∀ (fs : List FieldId) (frame : Frame) (s : FieldId → StorageRef),
    (∀ e ∈ frame, e.2.2 = s₀ e.2.1) →
    (∀ x, (∀ e ∈ frame, e.2.1 ≠ x) → s x = s₀ x) →
    (∀ e ∈ frame, e.1 = get_field_hash (env e.2.1)) →
    (∀ e ∈ (setup_fields env g fs frame s).1, e.2.2 = s₀ e.2.1) ∧
    (∀ x, (∀ e ∈ (setup_fields env g fs frame s).1, e.2.1 ≠ x) →
      (setup_fields env g fs frame s).2 x = s₀ x) ∧
    (∀ e ∈ (setup_fields env g fs frame s).1, e.1 = get_field_hash (env e.2.1)) := by
  intro fs
  induction fs with
  | nil => intro frame s h1 h2 h3; exact ⟨h1, h2, h3⟩
  | cons f rest ih =>
    intro frame s h1 h2 h3
    cases hfind : frame.find? (fun e => decide (e.1 = get_field_hash (env f))) with
    | some e₀ =>
      have hstep : setup_fields env g (f :: rest) frame s = setup_fields env g rest frame s := by
        simp [setup_fields, hfind]
      rw [hstep]
      exact ih frame s h1 h2 h3
    | none =>
      have hstep : setup_fields env g (f :: rest) frame s =
          setup_fields env g rest (frame ++ [(get_field_hash (env f), f, s f)])
            (Function.update s f (g f)) := by
        simp [setup_fields, hfind]
      rw [hstep]
      have hnokey : ∀ e ∈ frame, e.1 ≠ get_field_hash (env f) := by
        intro e he
        have := List.find?_eq_none.mp hfind e he
        simpa using this
      have hnofield : ∀ e ∈ frame, e.2.1 ≠ f := by
        intro e he hef
        exact hnokey e he (by rw [h3 e he, hef])
      have hsf : s f = s₀ f := h2 f hnofield
      apply ih
      · intro e he
        rcases List.mem_append.mp he with he | he
        · exact h1 e he
        · simp only [List.mem_singleton] at he
          subst he
          simpa using hsf
      · intro x hx
        have hxf : x ≠ f := by
          intro hxf
          subst hxf
          exact hx (get_field_hash (env x), x, s x) (List.mem_append_right _ (by simp)) rfl
        rw [Function.update_noteq hxf]
        apply h2
        intro e he
        exact hx e (List.mem_append_left _ he)
      · intro e he
        rcases List.mem_append.mp he with he | he
        · exact h3 e he
        · simp only [List.mem_singleton] at he
          subst he
          rfl

/-- Restoring a frame whose entries all hold original storages yields the
original heap everywhere (fields never captured were never swapped). -/
theorem restore_frame_restores (s₀ : FieldId → StorageRef) :
    ∀ (frame : Frame) (s : FieldId → StorageRef),
    (∀ e ∈ frame, e.2.2 = s₀ e.2.1) →
    (∀ x, (∀ e ∈ frame, e.2.1 ≠ x) → s x = s₀ x) →
    ∀ x, restore_frame frame s x = s₀ x := by
  intro frame
  induction frame with
  | nil => intro s h1 h2 x; exact h2 x (by simp)
  | cons e rest ih =>
    intro s h1 h2 x
    obtain ⟨h, f, orig⟩ := e
    simp only [restore_frame]
    apply ih
    · intro e' he'
      exact h1 e' (List.mem_cons_of_mem _ he')
    · intro y hy
      by_cases hyf : y = f
      · subst hyf
        rw [Function.update_same]
        exact (h1 (h, y, orig) (List.mem_cons_self _ _)).symm ▸ rfl
      · rw [Function.update_noteq hyf]
        apply h2
        intro e' he'
        rcases List.mem_cons.mp he' with rfl | he'
        · simpa using fun hfy => hyf hfy.symm
        · exact hy e' he'

/-- `restore_frame` does not touch a field no frame entry names. -/
theorem restore_frame_not_mem :
    ∀ (frame : Frame) (s : FieldId → StorageRef) (x : FieldId),
    (∀ e ∈ frame, e.2.1 ≠ x) → restore_frame frame s x = s x := by
  intro frame
  induction frame with
  | nil => intro s x _; rfl
  | cons e rest ih =>
    intro s x hx
    obtain ⟨h, f, orig⟩ := e
    simp only [restore_frame]
    rw [ih _ x (fun e' he' => hx e' (List.mem_cons_of_mem _ he'))]
    have hfx : f ≠ x := hx (h, f, orig) (List.mem_cons_self _ _)
    rw [Function.update_noteq (Ne.symm hfx)]

/-- If every frame entry naming field `x` carries the value `v` and at
least one entry names `x`, restoring the frame sets `x` to `v` — whatever
the heap held before (in particular, whatever a raising body left). -/
theorem restore_frame_captured :
    ∀ (frame : Frame) (s : FieldId → StorageRef) (x : FieldId) (v : StorageRef),
    (∃ e ∈ frame, e.2.1 = x) → (∀ e ∈ frame, e.2.1 = x → e.2.2 = v) →
    restore_frame frame s x = v := by
  intro frame
  induction frame with
  | nil =>
    intro s x v hex _
    simp at hex
  | cons e rest ih =>
    intro s x v hex hval
    obtain ⟨h, f, orig⟩ := e
    simp only [restore_frame]
    by_cases hrest : ∃ e' ∈ rest, e'.2.1 = x
    · exact ih _ x v hrest (fun e' he' => hval e' (List.mem_cons_of_mem _ he'))
    · obtain ⟨e', he', hfe⟩ := hex
      rcases List.mem_cons.mp he' with rfl | hmem
      · have hf : f = x := hfe
        subst hf
        have horig : orig = v := hval (h, f, orig) (List.mem_cons_self _ _) rfl
        rw [restore_frame_not_mem rest _ f (fun e2 he2 h2x => hrest ⟨e2, he2, h2x⟩)]
        rw [Function.update_same, horig]
      · exact absurd ⟨e', hmem, hfe⟩ hrest

/-- A completed `setup_storage` undone by one `teardown_storage` is the
identity on every field's storage and on the stack. -/
theorem teardown_setup_storage (env : FieldId → FieldMeta) (g : FieldId → StorageRef)
    (filefields : List FieldId) (st : OverrideState) :
    (∀ x, (teardown_storage (setup_storage env g filefields st)).storages x = st.storages x) ∧
    (teardown_storage (setup_storage env g filefields st)).storage_stack = st.storage_stack := by
  have hinv := setup_fields_inv env g st.storages filefields [] st.storages
    (by simp) (fun x _ => rfl) (by simp)
  exact ⟨fun x => restore_frame_restores st.storages _ _ hinv.1 hinv.2.1 x, rfl⟩

/-- Under the loop, assuming distinct fields in play never share a hash
(Django gives every field instance a fresh `creation_counter`): every field
of the processed list ends up named by some frame entry, and every
frame-entry field holds the storage `get_storage` chose for it. -/
theorem setup_fields_installs (env : FieldId → FieldMeta) (g : FieldId → StorageRef)
    (U : List FieldId)
    (hU : ∀ f1 ∈ U, ∀ f2 ∈ U, get_field_hash (env f1) = get_field_hash (env f2) → f1 = f2) :
    ∀ (fs : List FieldId) (frame : Frame) (s : FieldId → StorageRef),
    (∀ f ∈ fs, f ∈ U) →
    (∀ e ∈ frame, e.2.1 ∈ U) →
    (∀ e ∈ frame, e.1 = get_field_hash (env e.2.1)) →
    (∀ e ∈ frame, s e.2.1 = g e.2.1) →
    (∀ e ∈ (setup_fields env g fs frame s).1, e.2.1 ∈ U) ∧
    (∀ e ∈ (setup_fields env g fs frame s).1, e.1 = get_field_hash (env e.2.1)) ∧
    (∀ e ∈ (setup_fields env g fs frame s).1,
      (setup_fields env g fs frame s).2 e.2.1 = g e.2.1) ∧
    (∀ e ∈ frame, e ∈ (setup_fields env g fs frame s).1) ∧
    (∀ f ∈ fs, ∃ e ∈ (setup_fields env g fs frame s).1, e.2.1 = f) := by
  intro fs
  induction fs with
  | nil =>
    intro frame s _ hfU h3 h4
    exact ⟨hfU, h3, h4, fun e he => he, by simp⟩
  | cons f rest ih =>
    intro frame s hfs hfU h3 h4
    cases hfind : frame.find? (fun e => decide (e.1 = get_field_hash (env f))) with
    | some e₀ =>
      have hstep : setup_fields env g (f :: rest) frame s = setup_fields env g rest frame s := by
        simp [setup_fields, hfind]
      rw [hstep]
      have hrec := ih frame s (fun f' hf' => hfs f' (List.mem_cons_of_mem _ hf')) hfU h3 h4
      refine ⟨hrec.1, hrec.2.1, hrec.2.2.1, hrec.2.2.2.1, ?_⟩
      intro f' hf'
      rcases List.mem_cons.mp hf' with rfl | hf'
      · have he₀ : e₀ ∈ frame := List.mem_of_find?_eq_some hfind
        have hkey : e₀.1 = get_field_hash (env f') := by
          have := List.find?_some hfind
          simpa using this
        have hfield : e₀.2.1 = f' :=
          hU e₀.2.1 (hfU e₀ he₀) f' (hfs f' (List.mem_cons_self _ _))
            (by rw [← h3 e₀ he₀, hkey])
        exact ⟨e₀, hrec.2.2.2.1 e₀ he₀, hfield⟩
      · exact hrec.2.2.2.2 f' hf'
    | none =>
      have hstep : setup_fields env g (f :: rest) frame s =
          setup_fields env g rest (frame ++ [(get_field_hash (env f), f, s f)])
            (Function.update s f (g f)) := by
        simp [setup_fields, hfind]
      rw [hstep]
      have hfmem : f ∈ U := hfs f (List.mem_cons_self _ _)
      have hrec := ih (frame ++ [(get_field_hash (env f), f, s f)]) (Function.update s f (g f))
        (fun f' hf' => hfs f' (List.mem_cons_of_mem _ hf'))
        (by
          intro e he
          rcases List.mem_append.mp he with he | he
          · exact hfU e he
          · simp only [List.mem_singleton] at he
            subst he
            exact hfmem)
        (by
          intro e he
          rcases List.mem_append.mp he with he | he
          · exact h3 e he
          · simp only [List.mem_singleton] at he
            subst he
            rfl)
        (by
          intro e he
          rcases List.mem_append.mp he with he | he
          · by_cases hef : e.2.1 = f
            · rw [hef, Function.update_same]
            · rw [Function.update_noteq hef]
              exact h4 e he
          · simp only [List.mem_singleton] at he
            subst he
            simp)
      refine ⟨hrec.1, hrec.2.1, hrec.2.2.1, ?_, ?_⟩
      · intro e he
        exact hrec.2.2.2.1 e (List.mem_append_left _ he)
      · intro f' hf'
        rcases List.mem_cons.mp hf' with rfl | hf'
        · exact ⟨(get_field_hash (env f'), f', s f'),
            hrec.2.2.2.1 (get_field_hash (env f'), f', s f')
              (List.mem_append_right _ (by simp)), rfl⟩
        · exact hrec.2.2.2.2 f' hf'

/-- After a (whole) `setup_storage`, every enumerated field carries the
storage chosen for it, provided distinct enumerated fields have distinct
hashes. -/
theorem setup_storage_installs (env : FieldId → FieldMeta) (g : FieldId → StorageRef)
    (filefields : List FieldId) (st : OverrideState)
    (hU : ∀ f1 ∈ filefields, ∀ f2 ∈ filefields,
      get_field_hash (env f1) = get_field_hash (env f2) → f1 = f2)
    (f : FieldId) (hf : f ∈ filefields) :
    (setup_storage env g filefields st).storages f = g f := by
  have hrec := setup_fields_installs env g filefields hU filefields [] st.storages
    (fun _ h => h) (by simp) (by simp) (by simp)
  obtain ⟨e, he, hef⟩ := hrec.2.2.2.2 f hf
  have := hrec.2.2.1 e he
  rw [hef] at this
  exact this

/-- The keys of the frame built by the loop stay `Nodup`: a hash already
present is never inserted again. -/
theorem setup_fields_keys_nodup (env : FieldId → FieldMeta) (g : FieldId → StorageRef) :
    ∀ (fs : List FieldId) (frame : Frame) (s : FieldId → StorageRef),
    (frame.map (fun e => e.1)).Nodup →
    ((setup_fields env g fs frame s).1.map (fun e => e.1)).Nodup := by
  intro fs
  induction fs with
  | nil => intro frame s h; exact h
  | cons f rest ih =>
    intro frame s h
    cases hfind : frame.find? (fun e => decide (e.1 = get_field_hash (env f))) with
    | some e₀ =>
      have hstep : setup_fields env g (f :: rest) frame s = setup_fields env g rest frame s := by
        simp [setup_fields, hfind]
      rw [hstep]
      exact ih frame s h
    | none =>
      have hstep : setup_fields env g (f :: rest) frame s =
          setup_fields env g rest (frame ++ [(get_field_hash (env f), f, s f)])
            (Function.update s f (g f)) := by
        simp [setup_fields, hfind]
      rw [hstep]
      apply ih
      have hnokey : get_field_hash (env f) ∉ frame.map (fun e => e.1) := by
        intro hmem
        obtain ⟨e, he, hkey⟩ := List.mem_map.mp hmem
        have := List.find?_eq_none.mp hfind e he
        simp [hkey] at this
      rw [List.map_append]
      refine List.Nodup.append h (by simp) ?_
      intro a ha hb
      simp only [List.map_cons, List.map_nil, List.mem_singleton] at hb
      subst hb
      exact hnokey ha

/-- The keys of the built frame only grow, and every processed field's hash
is among them. -/
theorem setup_fields_key_mem (env : FieldId → FieldMeta) (g : FieldId → StorageRef) :
    ∀ (fs : List FieldId) (frame : Frame) (s : FieldId → StorageRef),
    (∀ h ∈ frame.map (fun e => e.1), h ∈ (setup_fields env g fs frame s).1.map (fun e => e.1)) ∧
    (∀ f ∈ fs, get_field_hash (env f) ∈ (setup_fields env g fs frame s).1.map (fun e => e.1)) := by
  intro fs
  induction fs with
  | nil => intro frame s; exact ⟨fun h hh => hh, by simp⟩
  | cons f rest ih =>
    intro frame s
    cases hfind : frame.find? (fun e => decide (e.1 = get_field_hash (env f))) with
    | some e₀ =>
      have hstep : setup_fields env g (f :: rest) frame s = setup_fields env g rest frame s := by
        simp [setup_fields, hfind]
      rw [hstep]
      refine ⟨(ih frame s).1, ?_⟩
      intro f' hf'
      rcases List.mem_cons.mp hf' with rfl | hf'
      · have he₀ : e₀ ∈ frame := List.mem_of_find?_eq_some hfind
        have hkey : e₀.1 = get_field_hash (env f') := by
          have := List.find?_some hfind
          simpa using this
        exact (ih frame s).1 _ (hkey ▸ List.mem_map_of_mem _ he₀)
      · exact (ih frame s).2 f' hf'
    | none =>
      have hstep : setup_fields env g (f :: rest) frame s =
          setup_fields env g rest (frame ++ [(get_field_hash (env f), f, s f)])
            (Function.update s f (g f)) := by
        simp [setup_fields, hfind]
      rw [hstep]
      have hmono := (ih (frame ++ [(get_field_hash (env f), f, s f)]) (Function.update s f (g f))).1
      refine ⟨?_, ?_⟩
      · intro h hh
        apply hmono
        rw [List.map_append]
        exact List.mem_append_left _ hh
      · intro f' hf'
        rcases List.mem_cons.mp hf' with rfl | hf'
        · apply hmono
          rw [List.map_append]
          exact List.mem_append_right _ (by simp)
        · exact (ih (frame ++ [(get_field_hash (env f), f, s f)]) (Function.update s f (g f))).2 f' hf'

/-- In a frame with `Nodup` keys, a present key heads exactly one entry. -/
theorem frame_countP_key_eq_one :
    ∀ (l : Frame) (h : Nat × String × String),
    (l.map (fun e => e.1)).Nodup → h ∈ l.map (fun e => e.1) →
    l.countP (fun e => decide (e.1 = h)) = 1 := by
  intro l
  induction l with
  | nil => intro h _ hmem; simp at hmem
  | cons hd tl ih =>
    intro h hnd hmem
    simp only [List.map_cons, List.nodup_cons] at hnd
    simp only [List.map_cons, List.mem_cons] at hmem
    rw [List.countP_cons]
    rcases hmem with rfl | hmem
    · have hzero : tl.countP (fun e => decide (e.1 = hd.1)) = 0 := by
        apply List.countP_eq_zero.mpr
        intro e he
        simp only [decide_eq_true_eq]
        intro hkey
        exact hnd.1 (hkey ▸ List.mem_map_of_mem _ he)
      simp [hzero]
    · have hne : hd.1 ≠ h := by
        intro hkey
        exact hnd.1 (hkey ▸ hmem)
      simp [ih h hnd.2 hmem, hne]

/-! ## Stats (utils.py, class `Stats`) -/

/-- Python strings in contexts where the substring operator `in` matters. -/
abbrev PyStr := List Char

/-- A stats key, `get_full_field_name(field) = (app_label, model_name, field.name)`. -/
abbrev StatsKey := String × String × String

/-- A value of the `saves_by_field` mapping.  The mapping is created as
`defaultdict(list)`, but `log_save` assigns the plain blob-name string over
the top, so a stored value is either a (default, always empty) list or the
single most recent blob-name string. -/
inductive StatsVal where
  | listVal (l : List PyStr)
  | strVal (s : PyStr)
  deriving DecidableEq, Repr

/-- The `saves_by_field` dict (insertion-ordered, unique keys). -/
abbrev StatsMap := List (StatsKey × StatsVal)

/-- Dict lookup without defaulting. -/
def statsGet (m : StatsMap) (k : StatsKey) : Option StatsVal :=
  (m.find? (fun e => decide (e.1 = k))).map (fun e => e.2)

/-- Python dict assignment `d[k] = v`: replace in place, else append. -/
def statsSet (m : StatsMap) (k : StatsKey) (v : StatsVal) : StatsMap :=
  if (m.find? (fun e => decide (e.1 = k))).isSome then
    m.map (fun e => if e.1 = k then (k, v) else e)
  else m ++ [(k, v)]

/-- The save-related state of a `Stats` object. -/
structure Stats where
  save_cnt : Nat
  saves_by_field : StatsMap
  deriving DecidableEq, Repr

/-- `Stats.log_save(self, field, fname)`: increment `save_cnt` and assign —
not append — `fname` as the value under the field's key, replacing whatever
was there. -/
def log_save (st : Stats) (key : StatsKey) (fname : PyStr) : Stats :=
  { save_cnt := st.save_cnt + 1,
    saves_by_field := statsSet st.saves_by_field key (.strVal fname) }

/-- Does `big` start with `small`?  (Python `str.startswith`, used to
build the substring test below.) -/
def listStartsWith : PyStr → PyStr → Bool
  | [], _ => true
  | _ :: _, [] => false
  | a :: as, b :: bs => a == b && listStartsWith as bs

/-- Python's substring operator `small in big` on strings: `small` occurs
as a contiguous run somewhere in `big` (the empty string occurs in
everything). -/
def pySubstr (small : PyStr) : PyStr → Bool
  | [] => small.isEmpty
  | b :: bs => listStartsWith small (b :: bs) || pySubstr small bs

/-- Python's `fname not in saved_files` test of `_get_content_file`,
un-negated, for the two shapes `saved_files` can take: membership when it
is the default list, substring containment when it is the string
`log_save` assigned. -/
def pyIn (fname : PyStr) : StatsVal → Bool
  | .listVal l => l.contains fname
  | .strVal s => pySubstr fname s

/-- The two `StatsTestStorageError` messages `_get_content_file` can build:
`notWrittenYet` is the "…has not been written to yet so there is nothing to
read." message of its `except KeyError` clause, `noFileNamed` the "…has not
had a file named '…' written to it.…" message. -/
inductive StatsErr where
  | notWrittenYet (key : StatsKey)
  | noFileNamed (key : StatsKey) (fname : PyStr)
  deriving DecidableEq, Repr

/-- `Stats._get_content_file` (reached from `get_content_file(field_key,
fname)`) up to its error decision; the success branch opens the blob
through the field's storage, which is external to `Stats` and modelled as
plain success.  The `try/except KeyError` around
`self.saves_by_field[(app_label, model_name, field_name)]` could only
raise `notWrittenYet` if the subscript raised `KeyError`; `saves_by_field`
is a `defaultdict(list)`, whose subscript never raises and instead
supplies a fresh empty list, embedded here by `Option.getD`. -/
def get_content_file_check (m : StatsMap) (key : StatsKey) (fname : PyStr) :
    Except StatsErr Unit :=
  let saved_files := (statsGet m key).getD (.listVal [])
  if pyIn fname saved_files then .ok () else .error (.noFileNamed key fname)

/-! ### Stats lemmas -/

theorem listStartsWith_iff : ∀ small big : PyStr,
    listStartsWith small big = true ↔ small <+: big := by
  intro small
  induction small with
  | nil => intro big; simp [listStartsWith]
  | cons a as ih =>
    intro big
    cases big with
    | nil => simp [listStartsWith]
    | cons b bs =>
      simp [listStartsWith, Bool.and_eq_true, beq_iff_eq, ih bs, List.cons_prefix_cons]

theorem pySubstr_iff (small : PyStr) : ∀ big : PyStr,
    pySubstr small big = true ↔ small <:+: big := by
  intro big
  induction big with
  | nil => cases small <;> simp [pySubstr, List.isEmpty]
  | cons b bs ih =>
    rw [pySubstr, Bool.or_eq_true, listStartsWith_iff, ih, List.infix_cons_iff]

theorem statsGet_cons_ne (hd : StatsKey × StatsVal) (tl : StatsMap) (k : StatsKey)
    (h : hd.1 ≠ k) : statsGet (hd :: tl) k = statsGet tl k := by
  simp [statsGet, List.find?, h]

theorem statsGet_cons_eq (hd : StatsKey × StatsVal) (tl : StatsMap) (k : StatsKey)
    (h : hd.1 = k) : statsGet (hd :: tl) k = some hd.2 := by
  simp [statsGet, List.find?, h]

theorem statsGet_append_absent (k : StatsKey) (v : StatsVal) :
    ∀ m : StatsMap, (∀ e ∈ m, e.1 ≠ k) → statsGet (m ++ [(k, v)]) k = some v := by
  intro m
  induction m with
  | nil => intro _; simp [statsGet, List.find?]
  | cons hd tl ih =>
    intro h
    rw [List.cons_append, statsGet_cons_ne hd _ k (h hd (List.mem_cons_self _ _))]
    exact ih (fun e he => h e (List.mem_cons_of_mem _ he))

theorem statsGet_map_replace (k : StatsKey) (v : StatsVal) :
    ∀ m : StatsMap, (∃ e ∈ m, e.1 = k) →
    statsGet (m.map (fun e => if e.1 = k then (k, v) else e)) k = some v := by
  intro m
  induction m with
  | nil => intro h; simp at h
  | cons hd tl ih =>
    intro h
    by_cases hhd : hd.1 = k
    · rw [List.map_cons, if_pos hhd]
      exact statsGet_cons_eq (k, v) _ k rfl
    · rw [List.map_cons, if_neg hhd, statsGet_cons_ne hd _ k hhd]
      obtain ⟨e₀, he₀, hk⟩ := h
      rcases List.mem_cons.mp he₀ with rfl | hmem
      · exact absurd hk hhd
      · exact ih ⟨e₀, hmem, hk⟩

/-- Dict assignment followed by lookup of the same key yields the assigned
value. -/
theorem statsGet_statsSet_self (m : StatsMap) (k : StatsKey) (v : StatsVal) :
    statsGet (statsSet m k v) k = some v := by
  by_cases hf : (m.find? (fun e => decide (e.1 = k))).isSome
  · rw [statsSet, if_pos hf]
    apply statsGet_map_replace
    cases hfind : m.find? (fun e => decide (e.1 = k)) with
    | none => rw [hfind] at hf; simp at hf
    | some e₀ =>
      exact ⟨e₀, List.mem_of_find?_eq_some hfind, by simpa using List.find?_some hfind⟩
  · rw [statsSet, if_neg hf]
    apply statsGet_append_absent
    intro e he
    have := List.find?_eq_none.mp (Option.not_isSome_iff_eq_none.mp hf) e he
    simpa using this

/-! ## Constructor guardrails (utils.py,
`StorageTestContextDecoratorBase.__init__` and `override_storage.__init__`) -/

/-- A Python object passed as a constructor argument, by identity. -/
abbrev PyObj := Nat

/-- The `TestStorageError` usage errors the constructors can raise:
`positionalArg` for "Incorrect usage: Positional arguments, calling as a
decorator without parenthesis and specifying the `unused_arg` keyword are
not supported."; the two conflict errors for a deprecated argument
supplied together with its replacement. -/
inductive UsageErr where
  | positionalArg
  | deprecatedStorageConflict
  | deprecatedKwargsConflict
  deriving DecidableEq, Repr

/-- What `override_storage.__init__` stores for later `setup_storage`s. -/
inductive StorageChoice where
  | locMemStorageClass
  | callableObj (o : PyObj)
  | instanceObj (o : PyObj)
  deriving DecidableEq, Repr

/-- The attributes a successfully constructed `override_storage` holds. -/
structure OverrideConfig where
  choice : StorageChoice
  storage_kwargs : Option PyObj
  storage_per_field : Bool
  deriving DecidableEq, Repr

/-- `override_storage.__init__`, in source order: the base-class
`StorageTestContextDecoratorBase.__init__` check that `unused_arg` is
`None`; the `storage_cls_or_obj` deprecation merge, erroring if `storage`
was also given; the `storage_cls_kwargs` deprecation merge, erroring if
`storage_kwargs` was also given; then the choice between the default
`LocMemStorage` class, a user callable (`hasattr(storage, '__call__')`,
modelled by `isCallable`) and a storage instance.  The
`warnings.warn(DeprecationWarning)` calls do not alter state and are
omitted. -/
def override_storage_init (isCallable : PyObj → Bool)
    (unused_arg storage storage_kwargs : Option PyObj) (storage_per_field : Bool)
    (storage_cls_or_obj storage_cls_kwargs : Option PyObj) :
    Except UsageErr OverrideConfig :=
  if unused_arg.isSome then .error .positionalArg
  else if storage_cls_or_obj.isSome && storage.isSome then .error .deprecatedStorageConflict
  else
    let storage1 := if storage_cls_or_obj.isSome then storage_cls_or_obj else storage
    if storage_cls_kwargs.isSome && storage_kwargs.isSome then .error .deprecatedKwargsConflict
    else
      let kwargs1 := if storage_cls_kwargs.isSome then storage_cls_kwargs else storage_kwargs
      .ok { choice :=
              match storage1 with
              | none => .locMemStorageClass
              | some o => if isCallable o then .callableObj o else .instanceObj o
            storage_kwargs := kwargs1
            storage_per_field := storage_per_field }

/-- Two controller states with the same heap and the same stack are the
same state. -/
theorem OverrideState.ext' (a b : OverrideState)
    (h1 : a.storages = b.storages) (h2 : a.storage_stack = b.storage_stack) : a = b := by
  cases a
  cases b
  cases h1
  cases h2
  rfl

/-! ## The claims -/

/-- C4: Round-trip on a fresh blob store: for every name and content, after
`stored_name = save(name, content)` (which keeps the requested name, the
fresh store having no collision), `open(stored_name)` returns bytes equal
to the content (text encoded at save time), and `exists(stored_name)` is
true from the save — surviving deletes of other names and further saves —
until `delete(stored_name)`, after which `exists(stored_name)` is false. -/
theorem C4_fresh_store_roundtrip (gan : String → String) (fuel : Nat)
    (bu : Option String) (cp : Option Nat) (name : String) (content : FileContent)
    (t : Nat) :
    ∃ st1, locmem_save gan fuel (locmemInit bu cp) name content t = some (name, st1) ∧
      locmem_open st1 name ['r', 'b'] = .ok (readBytes content) ∧
      locmem_exists st1 name = true ∧
      locmem_exists (locmem_delete st1 name) name = false ∧
      (∀ other, other ≠ name → locmem_exists (locmem_delete st1 other) name = true) ∧
      (∀ gan2 fuel2 n2 c2 t2 stored2 st2,
        locmem_save gan2 fuel2 st1 n2 c2 t2 = some (stored2, st2) →
        locmem_open st2 name ['r', 'b'] = .ok (readBytes content) ∧
        locmem_exists st2 name = true) := by
  refine ⟨{ cache := [(name, ⟨readBytes content, t⟩)], base_url := bu },
    locmem_save_fresh gan fuel bu cp name content t, ?_, ?_, ?_, ?_, ?_⟩
  · simp [locmem_open, cacheGet, List.find?]
  · simp [locmem_exists, cacheGet, List.find?]
  · simp [locmem_delete, locmem_exists, cacheGet, List.filter, List.find?]
  · intro other hother
    have hne : (name == other) = false := by
      simp [Ne.symm hother]
    simp [locmem_delete, locmem_exists, cacheGet, List.filter, List.find?, hne]
  · intro gan2 fuel2 n2 c2 t2 stored2 st2 hsave
    have hsome1 : cacheGet [(name, (⟨readBytes content, t⟩ : FakeContent))] name
        = some ⟨readBytes content, t⟩ := by
      simp [cacheGet, List.find?]
    have hsome2 := (locmem_save_spec gan2 fuel2 _ n2 c2 t2 stored2 st2 hsave).2.1
      name _ hsome1
    exact ⟨by simp [locmem_open, hsome2], by simp [locmem_exists, hsome2]⟩

/-- C4 witness: the round-trip at a concrete name and byte content, with
the delete-of-another-name and further-save hypotheses discharged at
concrete inputs. -/
theorem C4_fresh_store_roundtrip_witness :
    ∃ st1, locmem_save (fun n => n ++ "r") 3 (locmemInit none none) "a.txt"
        (.bytes [104, 105]) 0 = some ("a.txt", st1) ∧
      locmem_open st1 "a.txt" ['r', 'b'] = .ok [104, 105] ∧
      locmem_exists (locmem_delete st1 "b.txt") "a.txt" = true ∧
      (∃ st2, locmem_save (fun n => n) 3 st1 "b.txt" (.bytes [9]) 1 = some ("b.txt", st2) ∧
        locmem_exists st2 "a.txt" = true) := by
  obtain ⟨st1, h1, h2, h3, h4, h5, h6⟩ :=
    C4_fresh_store_roundtrip (fun n => n ++ "r") 3 none none "a.txt" (.bytes [104, 105]) 0
  have hcalc : locmem_save (fun n => n ++ "r") 3 (locmemInit none none) "a.txt"
      (.bytes [104, 105]) 0
      = some ("a.txt", { cache := [("a.txt", ⟨[104, 105], 0⟩)], base_url := none }) := rfl
  have hst1 := hcalc.symm.trans h1
  injection hst1 with hpair
  injection hpair with hnm hst
  subst hst
  have hsave2 : locmem_save (fun n => n) 3
      ({ cache := [("a.txt", ⟨[104, 105], 0⟩)], base_url := none } : LocMemStore)
      "b.txt" (.bytes [9]) 1
      = some ("b.txt",
          (⟨[("a.txt", ⟨[104, 105], 0⟩), ("b.txt", ⟨[9], 1⟩)], none⟩ : LocMemStore)) := rfl
  exact ⟨_, h1, h2, h5 "b.txt" (by decide), _, hsave2, (h6 _ _ _ _ _ _ _ hsave2).2⟩

/-- C5 counterexample: on an absent name the read-side queries do fail, but
with Python's `AttributeError` (attribute access on the `None` that
`dict.get` returned) — not with a not-found exception class, contrary to
the claim that the failure is "a distinguishable not-found error, never
some unrelated failure". -/
theorem C5_absent_error_counterexample :
    locmem_open (locmemInit none none) "missing.txt" ['r', 'b'] = .error .attributeError ∧
    locmem_size (locmemInit none none) "missing.txt" = .error .attributeError ∧
    locmem_get_time (locmemInit none none) "missing.txt" = .error .attributeError ∧
    PyExc.attributeError.isNotFound = false :=
  ⟨rfl, rfl, rfl, rfl⟩

/-- C5 (amended): for every name absent from the blob store's mapping,
`open(name)`, `size(name)` and the timestamp queries all fail — never
fabricated content — but the failure is the generic `AttributeError`
arising from the `.content`/`.time` access on the `None` returned by the
absent lookup, not a dedicated not-found error. -/
theorem C5_absent_fails_with_attribute_error (st : LocMemStore) (name : String)
    (mode : List Char) (habs : cacheGet st.cache name = none)
    (hmode : mode.contains 'w' = false) :
    locmem_open st name mode = .error .attributeError ∧
    locmem_size st name = .error .attributeError ∧
    locmem_get_time st name = .error .attributeError := by
  have hm : 'w' ∉ mode := by simpa using hmode
  refine ⟨?_, ?_, ?_⟩ <;> simp [locmem_open, locmem_size, locmem_get_time, habs, hm]

/-- C5 witness: the amended statement at a concrete fresh store and name. -/
theorem C5_absent_fails_witness :
    locmem_open (locmemInit none none) "gone.txt" ['r', 'b'] = .error .attributeError :=
  (C5_absent_fails_with_attribute_error (locmemInit none none) "gone.txt" ['r', 'b']
    rfl rfl).1

/-- C6 counterexample: saving under an already-present name never
overwrites, under any constructor configuration (`base_url` and the
ignored `cache_params` are the whole configuration surface, and neither is
read by `_save`): the concrete save below is renamed by
`get_available_name` and the original blob under `"a"` survives, so the
claimed overwrite-on-collision variant is not available. -/
theorem C6_overwrite_unsupported_counterexample :
    locmem_save (fun n => n ++ "x") 9 { cache := [("a", ⟨[1], 0⟩)], base_url := none }
      "a" (.bytes [2]) 1
      = some ("ax", { cache := [("a", ⟨[1], 0⟩), ("ax", ⟨[2], 1⟩)], base_url := none }) ∧
    cacheGet [("a", ⟨[1], 0⟩), ("ax", ⟨[2], 1⟩)] "a" = some ⟨[1], 0⟩ ∧
    cacheGet [("a", ⟨[1], 0⟩), ("ax", ⟨[2], 1⟩)] "ax" = some ⟨[2], 1⟩ :=
  ⟨rfl, rfl, rfl⟩

/-- C6 (amended): the blob store implements only the collision-avoiding
policy — no configuration selects overwriting.  `save(name, content)` with
an already-present name deterministically renames through
`get_available_name` iterates until a free name is found, returns the name
actually used, stores the new blob under it and leaves every existing blob
(in particular the one under the colliding name) untouched. -/
theorem C6_save_always_renames (gan : String → String) (fuel : Nat) (st : LocMemStore)
    (name : String) (content : FileContent) (t : Nat) (stored : String)
    (st' : LocMemStore)
    (h : locmem_save gan fuel st name content t = some (stored, st')) :
    cacheGet st.cache stored = none ∧
    (∃ k, stored = gan^[k] name) ∧
    cacheGet st'.cache stored = some ⟨readBytes content, t⟩ ∧
    (∀ n fc, cacheGet st.cache n = some fc → cacheGet st'.cache n = some fc) := by
  have hs := locmem_save_spec gan fuel st name content t stored st' h
  exact ⟨hs.1, hs.2.2.2.2.2.1, hs.2.2.1, hs.2.1⟩

/-- C6 witness: the amended statement at the counterexample's input. -/
theorem C6_save_always_renames_witness :
    cacheGet [("a", (⟨[1], 0⟩ : FakeContent))] "ax" = none ∧
    (∃ k, "ax" = (fun n => n ++ "x")^[k] "a") ∧
    cacheGet [("a", ⟨[1], 0⟩), ("ax", ⟨[2], 1⟩)] "ax" = some ⟨[2], 1⟩ := by
  have hs := C6_save_always_renames (fun n => n ++ "x") 9
    { cache := [("a", ⟨[1], 0⟩)], base_url := none } "a" (.bytes [2]) 1 "ax"
    { cache := [("a", ⟨[1], 0⟩), ("ax", ⟨[2], 1⟩)], base_url := none } rfl
  exact ⟨hs.1, hs.2.1, hs.2.2.1⟩

/-- C8: with no culling machinery at all (the constructor ignores
`cache_params`, so the default — and only — configuration never evicts),
a save preserves every stored entry and grows the cache by exactly one. -/
theorem C8_store_never_evicts (bu : Option String) (cp cp' : Option Nat)
    (gan : String → String) (fuel : Nat) (st : LocMemStore) (name : String)
    (content : FileContent) (t : Nat) (stored : String) (st' : LocMemStore)
    (h : locmem_save gan fuel st name content t = some (stored, st')) :
    locmemInit bu cp = locmemInit bu cp' ∧
    (locmemInit bu cp).cache = [] ∧
    (∀ n fc, cacheGet st.cache n = some fc → cacheGet st'.cache n = some fc) ∧
    st'.cache.length = st.cache.length + 1 := by
  have hs := locmem_save_spec gan fuel st name content t stored st' h
  refine ⟨rfl, rfl, hs.2.1, ?_⟩
  rw [hs.2.2.2.2.1]
  simp

/-- C8 witness: a store constructed with nominal `cache_params` capacity 2
retains all three of three inserted entries. -/
theorem C8_store_never_evicts_witness :
    cacheGet [("a", (⟨[1], 0⟩ : FakeContent)), ("b", ⟨[2], 1⟩), ("c", ⟨[3], 2⟩)] "a"
      = some ⟨[1], 0⟩ ∧
    cacheGet [("a", (⟨[1], 0⟩ : FakeContent)), ("b", ⟨[2], 1⟩), ("c", ⟨[3], 2⟩)] "b"
      = some ⟨[2], 1⟩ ∧
    cacheGet [("a", (⟨[1], 0⟩ : FakeContent)), ("b", ⟨[2], 1⟩), ("c", ⟨[3], 2⟩)] "c"
      = some ⟨[3], 2⟩ ∧
    locmem_save (fun n => n) 0 (locmemInit none (some 2)) "a" (.bytes [1]) 0
      = some ("a", { cache := [("a", ⟨[1], 0⟩)], base_url := none }) ∧
    ([("a", (⟨[1], 0⟩ : FakeContent)), ("b", ⟨[2], 1⟩), ("c", ⟨[3], 2⟩)].length = 3) := by
  refine ⟨?_, by decide, by decide, rfl, rfl⟩
  exact (C8_store_never_evicts none (some 2) (some 2) (fun n => n) 0
    { cache := [("a", ⟨[1], 0⟩), ("b", ⟨[2], 1⟩)], base_url := none } "c" (.bytes [3]) 2
    "c" { cache := [("a", ⟨[1], 0⟩), ("b", ⟨[2], 1⟩), ("c", ⟨[3], 2⟩)], base_url := none }
    rfl).2.2.1 "a" ⟨[1], 0⟩ (by decide)

/-- C1: Teardown is attempted exactly once per activation even on failure.
If `setup_storage` raises during `enable()` — here after its loop handled
the first `k` fields — the `except` clause invokes `teardown_storage`
before re-raising, leaving every field's storage and the stack exactly as
before the activation; when setup fails before the frame is even pushed,
the caught `IndexError` makes `teardown_storage` a safe no-op.  And if the
body of a context-manager block or decorated callable raises while the
override is active, `__exit__` still runs `disable()`: every captured
field's storage is reassigned to its original storage and the stack is
popped, while the body's exception propagates unchanged. -/
theorem C1_teardown_always_attempted (env : FieldId → FieldMeta) (g : FieldId → StorageRef)
    (filefields : List FieldId) (k : Nat) (st : OverrideState)
    (s : FieldId → StorageRef)
    (body : (FieldId → StorageRef) → (FieldId → StorageRef) × Option Exn) :
    (∀ x, (enable_setup_raises env g filefields k st).storages x = st.storages x) ∧
    (enable_setup_raises env g filefields k st).storage_stack = st.storage_stack ∧
    teardown_storage ⟨s, []⟩ = ⟨s, []⟩ ∧
    (run_with_override env g filefields body st).2 =
      (body (setup_storage env g filefields st).storages).2 ∧
    (run_with_override env g filefields body st).1.storage_stack = st.storage_stack ∧
    (∀ f, (∃ e ∈ (setup_fields env g filefields [] st.storages).1, e.2.1 = f) →
      (run_with_override env g filefields body st).1.storages f = st.storages f) := by
  have hts := teardown_setup_storage env g (filefields.take k) st
  refine ⟨hts.1, hts.2, rfl, rfl, rfl, ?_⟩
  intro f hf
  have hinv := setup_fields_inv env g st.storages filefields [] st.storages
    (by simp) (fun x _ => rfl) (by simp)
  exact restore_frame_captured _ _ f (st.storages f) hf
    (fun e he hee => by rw [hinv.1 e he, hee])

/-- C1 witness: a one-field world where setup fails after its only field,
and where the body raises exception `5` after scribbling over the heap; in
both cases the field comes back to its original storage `1`, and the body's
exception propagates. -/
theorem C1_teardown_always_attempted_witness :
    (enable_setup_raises (fun _ => ⟨0, "app", "m"⟩) (fun _ => 7) [0] 1
      ⟨fun _ => 1, []⟩).storages 0 = 1 ∧
    (run_with_override (fun _ => ⟨0, "app", "m"⟩) (fun _ => 7) [0]
      (fun _ => (fun _ => 99, some 5)) ⟨fun _ => 1, []⟩).1.storages 0 = 1 ∧
    (run_with_override (fun _ => ⟨0, "app", "m"⟩) (fun _ => 7) [0]
      (fun _ => (fun _ => 99, some 5)) ⟨fun _ => 1, []⟩).2 = some 5 := by
  have hc := C1_teardown_always_attempted (fun _ => ⟨0, "app", "m"⟩) (fun _ => 7) [0] 1
    ⟨fun _ => 1, []⟩ (fun _ => 1) (fun _ => (fun _ => 99, some 5))
  exact ⟨hc.1 0, hc.2.2.2.2.2 0 ⟨((0, "app", "m"), 0, 1), by decide, rfl⟩, hc.2.2.2.1⟩

/-- C2: Nested overrides restore in LIFO order: with distinct enumerated
fields having distinct identity hashes, after enabling override A (storages
`gA`) then override B (storages `gB`), every enumerated field holds `gA f`
under A, then `gB f` under B; disabling B brings the whole heap (and the
stack) back to A's state, so the field again holds the storage A installed;
disabling A then restores the pre-A heap and stack.  Each `setup_storage`
pushes exactly one frame and each `teardown_storage` pops it. -/
theorem C2_nested_overrides_restore_lifo (env : FieldId → FieldMeta)
    (gA gB : FieldId → StorageRef) (filefields : List FieldId) (st : OverrideState)
    (f : FieldId) (hf : f ∈ filefields)
    (hU : ∀ f1 ∈ filefields, ∀ f2 ∈ filefields,
      get_field_hash (env f1) = get_field_hash (env f2) → f1 = f2) :
    (setup_storage env gA filefields st).storages f = gA f ∧
    (setup_storage env gB filefields (setup_storage env gA filefields st)).storages f
      = gB f ∧
    (teardown_storage (setup_storage env gB filefields
      (setup_storage env gA filefields st))).storages f = gA f ∧
    (∀ x, (teardown_storage (setup_storage env gB filefields
      (setup_storage env gA filefields st))).storages x
        = (setup_storage env gA filefields st).storages x) ∧
    (teardown_storage (setup_storage env gB filefields
      (setup_storage env gA filefields st))).storage_stack
      = (setup_storage env gA filefields st).storage_stack ∧
    (∀ x, (teardown_storage (teardown_storage (setup_storage env gB filefields
      (setup_storage env gA filefields st)))).storages x = st.storages x) ∧
    (teardown_storage (teardown_storage (setup_storage env gB filefields
      (setup_storage env gA filefields st)))).storage_stack = st.storage_stack ∧
    (setup_storage env gA filefields st).storage_stack.length
      = st.storage_stack.length + 1 ∧
    (setup_storage env gB filefields (setup_storage env gA filefields st)).storage_stack.length
      = st.storage_stack.length + 2 := by
  have h1 := setup_storage_installs env gA filefields st hU f hf
  have h2 := setup_storage_installs env gB filefields
    (setup_storage env gA filefields st) hU f hf
  have h3 := teardown_setup_storage env gB filefields (setup_storage env gA filefields st)
  have hstate : teardown_storage (setup_storage env gB filefields
      (setup_storage env gA filefields st)) = setup_storage env gA filefields st :=
    OverrideState.ext' _ _ (funext h3.1) h3.2
  have h5 := teardown_setup_storage env gA filefields st
  refine ⟨h1, h2, ?_, h3.1, h3.2, ?_, ?_, rfl, rfl⟩
  · rw [hstate]
    exact h1
  · intro x
    rw [hstate]
    exact h5.1 x
  · rw [hstate]
    exact h5.2

/-- C2 witness: one field, two nested overrides installing storages 5 and
6 over original 1. -/
theorem C2_nested_overrides_restore_lifo_witness :
    (setup_storage (fun _ => ⟨0, "a", "m"⟩) (fun _ => 5) [0] ⟨fun _ => 1, []⟩).storages 0
      = 5 ∧
    (setup_storage (fun _ => ⟨0, "a", "m"⟩) (fun _ => 6) [0]
      (setup_storage (fun _ => ⟨0, "a", "m"⟩) (fun _ => 5) [0]
        ⟨fun _ => 1, []⟩)).storages 0 = 6 ∧
    (teardown_storage (setup_storage (fun _ => ⟨0, "a", "m"⟩) (fun _ => 6) [0]
      (setup_storage (fun _ => ⟨0, "a", "m"⟩) (fun _ => 5) [0]
        ⟨fun _ => 1, []⟩))).storages 0 = 5 ∧
    (teardown_storage (teardown_storage (setup_storage (fun _ => ⟨0, "a", "m"⟩)
      (fun _ => 6) [0] (setup_storage (fun _ => ⟨0, "a", "m"⟩) (fun _ => 5) [0]
        ⟨fun _ => 1, []⟩)))).storages 0 = 1 := by
  have hc := C2_nested_overrides_restore_lifo (fun _ => ⟨0, "a", "m"⟩) (fun _ => 5)
    (fun _ => 6) [0] ⟨fun _ => 1, []⟩ 0 (by decide) (by decide)
  exact ⟨hc.1, hc.2.1, hc.2.2.1, hc.2.2.2.2.2.1 0⟩

/-- C3: A field instance enumerated more than once (shared across proxy or
derived model types) is snapshotted at most once per activation: with field
identities (the Django 3.2 hash of creation counter, app label and model
name — spelled out in the last conjunct — rather than the field object's
default hash) injective over distinct enumerated fields, the frame built by
one `setup_storage` holds exactly one entry under the field's identity
key, that entry pairs the field with its original storage, and
`teardown_storage` reassigns that original storage exactly once, with no
duplicate or missing restoration. -/
theorem C3_shared_field_captured_once (env : FieldId → FieldMeta)
    (g : FieldId → StorageRef) (filefields : List FieldId) (st : OverrideState)
    (f : FieldId) (hf : f ∈ filefields)
    (hU : ∀ f1 ∈ filefields, ∀ f2 ∈ filefields,
      get_field_hash (env f1) = get_field_hash (env f2) → f1 = f2) :
    (setup_fields env g filefields [] st.storages).1.countP
      (fun e => decide (e.1 = get_field_hash (env f))) = 1 ∧
    (∃ e ∈ (setup_fields env g filefields [] st.storages).1,
      e.1 = get_field_hash (env f) ∧ e.2.1 = f ∧ e.2.2 = st.storages f) ∧
    (teardown_storage (setup_storage env g filefields st)).storages f = st.storages f ∧
    get_field_hash (env f)
      = ((env f).creation_counter, (env f).app_label, (env f).model_name) := by
  have hnd := setup_fields_keys_nodup env g filefields [] st.storages (by simp)
  have hmem := (setup_fields_key_mem env g filefields [] st.storages).2 f hf
  have hinst := setup_fields_installs env g filefields hU filefields [] st.storages
    (fun _ h => h) (by simp) (by simp) (by simp)
  have hinv := setup_fields_inv env g st.storages filefields [] st.storages
    (by simp) (fun x _ => rfl) (by simp)
  refine ⟨frame_countP_key_eq_one _ _ hnd hmem, ?_,
    (teardown_setup_storage env g filefields st).1 f, rfl⟩
  obtain ⟨e, he, hef⟩ := hinst.2.2.2.2 f hf
  exact ⟨e, he, by rw [hinst.2.1 e he, hef], hef, by rw [hinv.1 e he, hef]⟩

/-- C3 witness: a field listed twice (as under a proxy model) is captured
once, with its original storage, and restored. -/
theorem C3_shared_field_captured_once_witness :
    (setup_fields (fun _ => ⟨0, "a", "m"⟩) (fun _ => 5) [0, 0] []
      (fun _ => 1)).1.countP
      (fun e => decide (e.1 = get_field_hash ((fun _ => (⟨0, "a", "m"⟩ : FieldMeta)) 0)))
      = 1 ∧
    (teardown_storage (setup_storage (fun _ => ⟨0, "a", "m"⟩) (fun _ => 5) [0, 0]
      ⟨fun _ => 1, []⟩)).storages 0 = 1 := by
  have hc := C3_shared_field_captured_once (fun _ => ⟨0, "a", "m"⟩) (fun _ => 5) [0, 0]
    ⟨fun _ => 1, []⟩ 0 (by decide) (by decide)
  exact ⟨hc.1, hc.2.2.1⟩

/-- C7: the claimed distinction between the two `NotWritten` messages does
not happen.  Because `saves_by_field` is a `defaultdict(list)`, the
subscript in `_get_content_file` never raises `KeyError`, so the dedicated
"has not been written to yet" branch is dead code: a field that was never
saved to gets the empty default list and falls through to the same "has not
had a file named '…' written to it" error as a field saved under a
different name.  First conjunct: the never-written case at a concrete key;
second: the written-under-another-name case; third: no input whatsoever
produces the `notWrittenYet` error. -/
theorem C7_notWrittenYet_branch_dead :
    get_content_file_check [] ("tests", "simplemodel", "upload_file") "wrong_test.txt".data
      = .error (.noFileNamed ("tests", "simplemodel", "upload_file")
          "wrong_test.txt".data) ∧
    get_content_file_check
      (log_save ⟨0, []⟩ ("tests", "simplemodel", "upload_file")
        "test.txt".data).saves_by_field
      ("tests", "simplemodel", "upload_file") "wrong_test.txt".data
      = .error (.noFileNamed ("tests", "simplemodel", "upload_file")
          "wrong_test.txt".data) ∧
    (∀ m key fname, get_content_file_check m key fname = .ok () ∨
      get_content_file_check m key fname = .error (.noFileNamed key fname)) := by
  refine ⟨rfl, rfl, ?_⟩
  intro m key fname
  rw [get_content_file_check]
  split
  · exact Or.inl rfl
  · exact Or.inr rfl

/-- C9: constructing the override controller with any non-`None` positional
argument fails fast with the descriptive usage error, and supplying a
deprecated constructor argument (`storage_cls_or_obj` or
`storage_cls_kwargs`) together with its current counterpart (`storage` or
`storage_kwargs`) raises a usage error, in the source's checking order. -/
theorem C9_constructor_guardrails (isCallable : PyObj → Bool)
    (unused_arg storage storage_kwargs : Option PyObj) (per_field : Bool)
    (cls_or_obj cls_kwargs : Option PyObj) :
    (unused_arg.isSome = true →
      override_storage_init isCallable unused_arg storage storage_kwargs per_field
        cls_or_obj cls_kwargs = .error .positionalArg) ∧
    (unused_arg = none → cls_or_obj.isSome = true → storage.isSome = true →
      override_storage_init isCallable unused_arg storage storage_kwargs per_field
        cls_or_obj cls_kwargs = .error .deprecatedStorageConflict) ∧
    (unused_arg = none → (cls_or_obj.isSome && storage.isSome) = false →
      cls_kwargs.isSome = true → storage_kwargs.isSome = true →
      override_storage_init isCallable unused_arg storage storage_kwargs per_field
        cls_or_obj cls_kwargs = .error .deprecatedKwargsConflict) := by
  refine ⟨?_, ?_, ?_⟩
  · intro h
    simp [override_storage_init, h]
  · intro h1 h2 h3
    simp [override_storage_init, h1, h2, h3]
  · intro h1 h2 h3 h4
    simp [override_storage_init, h1, h2, h3, h4]

/-- C9 witness: the three usage errors at concrete argument tuples. -/
theorem C9_constructor_guardrails_witness :
    override_storage_init (fun _ => true) (some 3) none none false none none
      = .error .positionalArg ∧
    override_storage_init (fun _ => true) none (some 1) none false (some 2) none
      = .error .deprecatedStorageConflict ∧
    override_storage_init (fun _ => true) none none (some 1) false none (some 2)
      = .error .deprecatedKwargsConflict :=
  ⟨(C9_constructor_guardrails (fun _ => true) (some 3) none none false none none).1 rfl,
   (C9_constructor_guardrails (fun _ => true) none (some 1) none false (some 2)
     none).2.1 rfl rfl rfl,
   (C9_constructor_guardrails (fun _ => true) none none (some 1) false none
     (some 2)).2.2 rfl rfl rfl rfl⟩

/-- C10: each logged save replaces the field's mapping entry with the single
latest blob-name string (and bumps the counter), so after a save with most
recent stored name `s`, the was-this-name-written check of
`get_content_file` passes exactly when the queried name is a substring of
`s` (Python's `in` on the string value): any substring — even one never
actually saved — passes, and any non-substring (such as an earlier saved
name) raises the `NotWritten` error. -/
theorem C10_latest_name_substring_check (st : Stats) (key : StatsKey)
    (s fname : PyStr) :
    statsGet (log_save st key s).saves_by_field key = some (.strVal s) ∧
    (log_save st key s).save_cnt = st.save_cnt + 1 ∧
    (get_content_file_check (log_save st key s).saves_by_field key fname = .ok () ↔
      fname <:+: s) ∧
    (¬ fname <:+: s →
      get_content_file_check (log_save st key s).saves_by_field key fname
        = .error (.noFileNamed key fname)) := by
  have hget : statsGet (log_save st key s).saves_by_field key = some (.strVal s) :=
    statsGet_statsSet_self st.saves_by_field key (.strVal s)
  refine ⟨hget, rfl, ?_, ?_⟩
  · rw [get_content_file_check, hget]
    cases hps : pySubstr fname s with
    | true => simp [pyIn, hps, (pySubstr_iff fname s).mp hps]
    | false =>
      simp only [Option.getD_some, pyIn, hps, Bool.false_eq_true, if_false]
      simp only [← pySubstr_iff, hps]
      simp
  · intro hnot
    have hps : pySubstr fname s = false := by
      cases hps : pySubstr fname s
      · rfl
      · exact absurd ((pySubstr_iff fname s).mp hps) hnot
    rw [get_content_file_check, hget]
    simp [pyIn, hps]

/-- C10 witness: after saving `"abc"`, the never-saved proper substring
`"bc"` passes the check while the non-substring `"zz"` raises. -/
theorem C10_latest_name_substring_check_witness :
    get_content_file_check (log_save ⟨0, []⟩ ("a", "m", "f") "abc".data).saves_by_field
      ("a", "m", "f") "bc".data = .ok () ∧
    get_content_file_check (log_save ⟨0, []⟩ ("a", "m", "f") "abc".data).saves_by_field
      ("a", "m", "f") "zz".data
      = .error (.noFileNamed ("a", "m", "f") "zz".data) :=
  ⟨(C10_latest_name_substring_check ⟨0, []⟩ ("a", "m", "f") "abc".data
      "bc".data).2.2.1.mpr ((pySubstr_iff "bc".data "abc".data).mp rfl),
   (C10_latest_name_substring_check ⟨0, []⟩ ("a", "m", "f") "abc".data
      "zz".data).2.2.2
     (fun h => absurd ((pySubstr_iff "zz".data "abc".data).mpr h) (by decide))⟩

end OverrideStorage
